import Mathlib

/-!
# json2csv: a verification development

Shallow embedding of `main.go` of json2csv: the four stage constructors
(`runToCSVLater`, `extractHeader`, `newValidator`, `stopOnCancel`) and the
pipeline assembled by `main`.

Conventions of the embedding.

* A Go channel that a stage only writes to (`out`, `errs`) is the list of the
  values written so far, oldest first.
* A Go channel that a stage only reads from (`in`) is the list of the values
  still to be delivered; the empty list is the closed channel.
* Goroutines that run concurrently are program counters inside one state
  record; an execution is a list of scheduler choices, each of which lets one
  goroutine take one step (an unbuffered channel operation is one joint step
  of the sender and the receiver).
* The libraries `pipe/line`, `pipe/message`, `pipe/extras/*` and `cue` are not
  part of the program; what the program needs from them is a parameter or is
  modelled from the specification and marked so.
-/

namespace Json2Csv

/-! ## Data model -/

/-- A pipeline message, Go `interface{}`. The only shape the program ever looks
at is `map[string]interface{}`; a record lists its fields in the order in which
`range` yields them, field values are opaque payloads. Every other dynamic
value is `other`. -/
inductive Msg where
  | record (fields : List (String × String))
  | other (raw : String)
deriving DecidableEq, Repr

/-- An error value (Go `error`), identified by its text. -/
abbrev Err := String

/-- Result of one call of a Go function `func(m interface{}) (interface{}, error)`
that may also update a piece of shared state of type `σ`: either it returns the
pair together with the state at the moment of return, or it panics. -/
inductive Outcome (σ : Type) where
  | ret (msg : Option Msg) (err : Option Err) (st : σ)
  | panic
deriving DecidableEq, Repr

/-- The two fields of `csv.To` the program touches. -/
structure CsvTo where
  ShowHeader : Bool
  Header : List String
deriving DecidableEq, Repr

/-- The cancellable context created in `main`: whether `ctx.Done()` is closed,
and how often `cancel` has been called. -/
structure Ctx where
  cancelled : Bool
  cancelCalls : Nat
deriving DecidableEq, Repr

/-- The function `cancel` returned by `context.WithCancel`: closes `Done`
(calling it again leaves it closed). -/
def cancel (c : Ctx) : Ctx :=
  { cancelled := true, cancelCalls := c.cancelCalls + 1 }

/-- The state of `context.Background()` wrapped by `WithCancel`, before any call
of `cancel`. -/
def Ctx.background : Ctx := { cancelled := false, cancelCalls := 0 }

/-- The external schema collaborator: `message.String`, `cueCtx.CompileString`
and `schema.Subsume` (`none` is the nil error). -/
structure Cue (V : Type) where
  messageString : Msg → String
  compileString : String → V
  subsume : V → Option Err

/-! ## extractHeader (main.go 105-115) -/

/-- The loop `for k, _ := range msg { toCSV.Header = append(toCSV.Header, k) }`. -/
def rangeAppend (hdr : List String) : List (String × String) → List String
  | [] => hdr
  | (k, _) :: rest => rangeAppend (hdr ++ [k]) rest

/-- The function wrapped by `line.I` in `extractHeader`. The type assertion
`m.(map[string]interface{})` has no `ok` result, so it panics on a message that
is not a map; it is evaluated only while the header is empty. -/
def extractHeader (toCSV : CsvTo) (m : Msg) : Outcome CsvTo :=
  if toCSV.Header.length = 0 then
    match m with
    | .record msg => .ret (some m) none { toCSV with Header := rangeAppend toCSV.Header msg }
    | .other _ => .panic
  else
    .ret (some m) none toCSV

/-- The `csv.To` value built in `main`: `&csv.To{ShowHeader: true}`. -/
def toCSVInit : CsvTo := { ShowHeader := true, Header := [] }

/-- The `csv.To` state after `extractHeader` has been called on each message of a
sequence in turn; `none` when one of the calls panicked. -/
def headerAfter (toCSV : CsvTo) : List Msg → Option CsvTo
  | [] => some toCSV
  | m :: rest =>
    match extractHeader toCSV m with
    | .ret _ _ st => headerAfter st rest
    | .panic => none

/-- The field names of a record, in enumeration order. -/
def fieldNames (fields : List (String × String)) : List String :=
  fields.map Prod.fst

/-! ## newValidator (main.go 117-127) -/

/-- The function wrapped by `line.I` in `newValidator`; the third argument is
the state of the context whose `cancel` was passed in. -/
def newValidator {V : Type} (cue : Cue V) (m : Msg) (c : Ctx) : Outcome Ctx :=
  let val := cue.compileString (cue.messageString m)
  match cue.subsume val with
  | some err => .ret none (some err) (cancel c)
  | none => .ret (some m) none c

/-! ## line.I -/

/-- What a stage has done when it returns. -/
structure StageRun (σ : Type) where
  out : List Msg
  errs : List Err
  st : σ
  panicked : Bool
deriving DecidableEq, Repr

/-- Modelled from the spec: `line.I` of the pipe library (section 4.3, Mapping
Stage Adapter). For each input message invoke `f`; on success forward the
result; on failure emit an Error Report carrying the failure and forward
nothing for that input. A panic of `f` ends the run. -/
def lineI {σ : Type} (f : Msg → σ → Outcome σ) : List Msg → StageRun σ → StageRun σ
  | [], r => r
  | m :: rest, r =>
    match f m r.st with
    | .panic => { r with panicked := true }
    | .ret _ (some e) st => lineI f rest { r with errs := r.errs ++ [e], st := st }
    | .ret msg none st => lineI f rest { r with out := r.out ++ msg.toList, st := st }

/-- A stage that has not done anything yet. -/
def StageRun.start {σ : Type} (st : σ) : StageRun σ :=
  { out := [], errs := [], st := st, panicked := false }

/-! ## stopOnCancel (main.go 129-141) -/

/-- The error `errors.New("context cancelled")`. -/
def ctxCancelledErr : Err := "context cancelled"

/-- What `stopOnCancel` has done when it returns: the messages written to `out`,
the errors written to `errs`, how many messages it took from `in`, and the part
of the input it never read. -/
structure SocRun where
  out : List Msg
  errs : List Err
  received : Nat
  unread : List Msg
deriving DecidableEq, Repr

/-- The loop of `stopOnCancel`. `done i` is what the `select` on `ctx.Done()`
sees at the poll for the message with index `i` (`true`: the channel is closed,
so the `Done` case is taken; `false`: the `default` case is taken). -/
def stopOnCancelLoop (done : Nat → Bool) : Nat → List Msg → SocRun → SocRun
  | _, [], r => { r with unread := [] }
  | i, m :: rest, r =>
    if done i then
      { r with errs := r.errs ++ [ctxCancelledErr], received := r.received + 1, unread := rest }
    else
      stopOnCancelLoop done (i + 1) rest
        { r with out := r.out ++ [m], received := r.received + 1, unread := rest }

/-- The stage `stopOnCancel(ctx)` run on the input sequence `xs`. -/
def stopOnCancel (done : Nat → Bool) (xs : List Msg) : SocRun :=
  stopOnCancelLoop done 0 xs { out := [], errs := [], received := 0, unread := xs }

/-! ## runToCSVLater (main.go 64-103) -/

/-- What an inner transformer (a `line.Tfunc` such as `toCSV.T`) does next:
receive from its input channel (`none` is what a receive on the closed channel
yields), write a message to its output channel, write an error to `errs`, or
return. -/
inductive TAct (σ : Type) where
  | recv (k : Option Msg → σ)
  | send (v : Msg) (next : σ)
  | report (e : Err) (next : σ)
  | halt

/-- An inner transformer: a sequential process with local state `σ` that talks
to the rest of the program only through its three channels. -/
structure Transformer (σ : Type) where
  init : σ
  step : σ → TAct σ

/-- Program counter of the stage function itself. -/
inductive MainPc where
  | loop
  | sending (m : Msg)
  | waiting
  | returned
deriving DecidableEq, Repr

/-- Program counter of the goroutine `go func() { defer close(subOut); toCSV.T(subIn, subOut, errs) }()`. -/
inductive InnerPc (σ : Type) where
  | notStarted
  | running (s : σ)
  | exited

/-- Program counter of the drain goroutine. -/
inductive DrainPc where
  | notStarted
  | recv
  | holding (msg : Msg)
  | done
deriving DecidableEq, Repr

/-- State of one run of the function returned by `runToCSVLater`. The last four
fields are history: for each launch of the inner transformer the number of
messages the stage had received before it, the number of messages received
from `in`, the messages the inner transformer received from `subIn`, and the
messages it wrote to `subOut`. -/
structure LazySt (σ : Type) where
  inp : List Msg
  main : MainPc
  spunUp : Bool
  inner : InnerPc σ
  drain : DrainPc
  subInClosed : Bool
  subOutClosed : Bool
  wg : Nat
  out : List Msg
  errs : List Err
  launches : List Nat
  received : Nat
  fed : List Msg
  produced : List Msg

/-- The goroutines of the stage. -/
inductive Who where
  | main
  | inner
  | drain
deriving DecidableEq, Repr

/-- The state when the stage function is entered with input `xs`. -/
def LazySt.init {σ : Type} (xs : List Msg) : LazySt σ :=
  { inp := xs, main := .loop, spunUp := false, inner := .notStarted, drain := .notStarted,
    subInClosed := false, subOutClosed := false, wg := 0, out := [], errs := [],
    launches := [], received := 0, fed := [], produced := [] }

/-- One step of the stage function (the goroutine that runs `for m := range in`). -/
def runToCSVLater {σ : Type} (T : Transformer σ) (s : LazySt σ) : Option (LazySt σ) :=
  match s.main with
  | .loop =>
    match s.inp with
    | m :: rest =>
      if s.spunUp then
        some { s with inp := rest, main := .sending m, received := s.received + 1 }
      else
        some { s with inp := rest, main := .sending m, received := s.received + 1,
                      spunUp := true, inner := .running T.init, drain := .recv,
                      wg := s.wg + 1, launches := s.launches ++ [s.received] }
    | [] => some { s with main := .waiting, subInClosed := true }
  | .sending m =>
    match s.inner with
    | .running t =>
      match T.step t with
      | .recv k => some { s with main := .loop, inner := .running (k (some m)), fed := s.fed ++ [m] }
      | _ => none
    | _ => none
  | .waiting => if s.wg = 0 then some { s with main := .returned } else none
  | .returned => none

/-- One step of the goroutine that runs the inner transformer. -/
def runToCSVLaterInner {σ : Type} (T : Transformer σ) (s : LazySt σ) : Option (LazySt σ) :=
  match s.inner with
  | .running t =>
    match T.step t with
    | .recv k => if s.subInClosed then some { s with inner := .running (k none) } else none
    | .send v next =>
      match s.drain with
      | .recv => some { s with inner := .running next, drain := .holding v, produced := s.produced ++ [v] }
      | _ => none
    | .report e next => some { s with inner := .running next, errs := s.errs ++ [e] }
    | .halt => some { s with inner := .exited, subOutClosed := true }
  | _ => none

/-- One step of the drain goroutine. -/
def runToCSVLaterDrain {σ : Type} (s : LazySt σ) : Option (LazySt σ) :=
  match s.drain with
  | .recv => if s.subOutClosed then some { s with drain := .done, wg := s.wg - 1 } else none
  | .holding msg => some { s with drain := .recv, out := s.out ++ [msg] }
  | _ => none

/-- One scheduler choice: the chosen goroutine takes its next step, `none` when
it is blocked or does not exist. A send on the unbuffered `subIn` or `subOut`
is a joint step with the receiver and is scheduled as a step of the sender. -/
def lazyStep {σ : Type} (T : Transformer σ) (w : Who) (s : LazySt σ) : Option (LazySt σ) :=
  match w with
  | .main => runToCSVLater T s
  | .inner => runToCSVLaterInner T s
  | .drain => runToCSVLaterDrain s

/-- An execution: the state after the scheduler choices of `sched`, `none` when
one of them was not possible. -/
def lazyExec {σ : Type} (T : Transformer σ) : List Who → LazySt σ → Option (LazySt σ)
  | [], s => some s
  | w :: rest, s =>
    match lazyStep T w s with
    | some s1 => lazyExec T rest s1
    | none => none

/-- The states the stage passes through when its input is closed from the
start: on entry, after `close(subIn)`, and returned. -/
def emptyRun {σ : Type} (i : Nat) : LazySt σ :=
  match i with
  | 0 => LazySt.init []
  | 1 => { (LazySt.init [] : LazySt σ) with main := .waiting, subInClosed := true }
  | _ => { (LazySt.init [] : LazySt σ) with main := .returned, subInClosed := true }

/-- Local states of a sample inner transformer. -/
inductive RowPc where
  | start
  | idle
  | got (m : Msg)
  | fin
deriving DecidableEq, Repr

/-- A sample inner transformer in the manner of `csv.To`: it writes a header row,
then one row per message it receives, and returns when its input is closed. -/
def rowWriter : Transformer RowPc :=
  { init := .start
    step := fun s =>
      match s with
      | .start => .send (.other "header") .idle
      | .idle => .recv (fun r => match r with
          | some m => .got m
          | none => .fin)
      | .got m => .send m .idle
      | .fin => .halt }

/-- The part of the stream `inp` the transformer has not received when it
returns, run on its own on `inp` followed by closure of its input (`none`: it
has not returned within `fuel` steps). -/
def Transformer.unread {σ : Type} (T : Transformer σ) : Nat → σ → List Msg → Option (List Msg)
  | 0, _, _ => none
  | fuel + 1, s, inp =>
    match T.step s with
    | .halt => some inp
    | .send _ next => T.unread fuel next inp
    | .report _ next => T.unread fuel next inp
    | .recv k =>
      match inp with
      | [] => T.unread fuel (k none) []
      | m :: rest => T.unread fuel (k (some m)) rest

/-- The stages `main` can add to the pipeline. -/
inductive Stage where
  | stopOnCancel
  | newValidator
  | jsonFrom
  | extractHeader
  | runToCSVLater
  | stdout
deriving DecidableEq, Repr

/-- The two command-line flags. -/
structure Flags where
  schemaCueFile : String
  stopOnError : Bool
deriving DecidableEq, Repr

/-- Modelled from the spec: `line.New` and `Line.Add` of the pipe library
(section 4.2): a pipeline definition is the ordered list of its stages, and
`add(stage)` appends. -/
def lineNew : List Stage := []

/-- Modelled from the spec: `Line.Add` appends the given stages in order. -/
def lineAdd (pipe : List Stage) (stages : List Stage) : List Stage := pipe ++ stages

/-- The pipeline `main` assembles before calling `RunContext`; `none` when
`ioutil.ReadFile` fails and `log.Fatal` ends the process. -/
def main (flags : Flags) (readFile : String → Except Err String) : Option (List Stage) :=
  let pipe := lineNew
  let tail := [Stage.jsonFrom, Stage.extractHeader, Stage.runToCSVLater, Stage.stdout]
  if flags.schemaCueFile ≠ "" then
    match readFile flags.schemaCueFile with
    | .error _ => none
    | .ok _ =>
      let pipe := if flags.stopOnError then lineAdd pipe [Stage.stopOnCancel] else pipe
      let pipe := lineAdd pipe [Stage.newValidator]
      some (lineAdd pipe tail)
  else
    some (lineAdd pipe tail)

/-- The order the data-flow overview gives for the stages. -/
def overviewOrder : List Stage :=
  [Stage.jsonFrom, Stage.newValidator, Stage.stopOnCancel, Stage.extractHeader,
   Stage.runToCSVLater, Stage.stdout]

/-- The order in which `main` adds the stages. -/
def addOrder : List Stage :=
  [Stage.stopOnCancel, Stage.newValidator, Stage.jsonFrom, Stage.extractHeader,
   Stage.runToCSVLater, Stage.stdout]

/-! ## The first two stages of the pipeline under `-schema` and `-stop`

With both flags set `main` adds `stopOnCancel(ctx)` and then
`newValidator(cueCtx, schema, cancel)`, so the cancellation check feeds the
schema gate, and both share the context `ctx`. -/

/-- Program counter of the `stopOnCancel` goroutine: at `range in`, at the
`select`, at `out <- m`, at `errs <- ...`, or returned. -/
inductive SocPc where
  | recv
  | poll (m : Msg)
  | send (m : Msg)
  | report
  | returned
deriving DecidableEq, Repr

/-- Program counter of the schema-gate goroutine (the `line.I` loop around the
function of `newValidator`): waiting for input, about to call the function on
`m`, about to forward `m`, about to report `e`, stopped by a panic, or
returned. -/
inductive GatePc where
  | recv
  | call (m : Msg)
  | forward (m : Msg)
  | report (e : Err)
  | panicked
  | returned
deriving DecidableEq, Repr

/-- State of the two stages: the input still to come, the two program counters,
the queue from the cancellation check to the schema gate (its buffered
messages, whether it is closed), the shared context, the messages the schema
gate has forwarded towards the sink, and the error reports. -/
structure HaltSt where
  inp : List Msg
  soc : SocPc
  queue : List Msg
  queueClosed : Bool
  gate : GatePc
  ctx : Ctx
  past : List Msg
  errs : List Err
deriving DecidableEq, Repr

/-- The two goroutines. -/
inductive Worker where
  | soc
  | gate
deriving DecidableEq, Repr

/-- The state in which `RunContext` starts the two stages on the input `xs`. -/
def HaltSt.init (xs : List Msg) : HaltSt :=
  { inp := xs, soc := .recv, queue := [], queueClosed := false, gate := .recv,
    ctx := Ctx.background, past := [], errs := [] }

/-- One step of `stopOnCancel` inside the pipeline. The queue to the next stage
holds at most `cap` messages (`cap = 0`: unbuffered); a send hands the message
to a waiting receiver, or else buffers it if there is room, or else blocks.
Modelled from the spec (section 4.1): the output queue is closed when the
stage function returns. -/
def stopOnCancelStep (cap : Nat) (s : HaltSt) : Option HaltSt :=
  match s.soc with
  | .recv =>
    match s.inp with
    | m :: rest => some { s with inp := rest, soc := .poll m }
    | [] => some { s with soc := .returned, queueClosed := true }
  | .poll m =>
    if s.ctx.cancelled then some { s with soc := .report } else some { s with soc := .send m }
  | .send m =>
    if s.gate = .recv ∧ s.queue = [] then some { s with soc := .recv, gate := .call m }
    else if s.queue.length < cap then some { s with soc := .recv, queue := s.queue ++ [m] }
    else none
  | .report => some { s with soc := .returned, queueClosed := true, errs := s.errs ++ [ctxCancelledErr] }
  | .returned => none

/-- One step of the schema gate inside the pipeline: the loop of `lineI` around
`newValidator`, one channel operation or one call at a time. -/
def newValidatorStep {V : Type} (cue : Cue V) (s : HaltSt) : Option HaltSt :=
  match s.gate with
  | .recv =>
    match s.queue with
    | m :: rest => some { s with queue := rest, gate := .call m }
    | [] => if s.queueClosed then some { s with gate := .returned } else none
  | .call m =>
    match newValidator cue m s.ctx with
    | .panic => some { s with gate := .panicked }
    | .ret _ (some e) c => some { s with gate := .report e, ctx := c }
    | .ret (some r) none c => some { s with gate := .forward r, ctx := c }
    | .ret none none c => some { s with gate := .recv, ctx := c }
  | .forward m => some { s with gate := .recv, past := s.past ++ [m] }
  | .report e => some { s with gate := .recv, errs := s.errs ++ [e] }
  | .panicked => none
  | .returned => none

/-- One scheduler choice for the two stages. -/
def haltStep {V : Type} (cue : Cue V) (cap : Nat) (w : Worker) (s : HaltSt) : Option HaltSt :=
  match w with
  | .soc => stopOnCancelStep cap s
  | .gate => newValidatorStep cue s

/-- An execution of the two stages. -/
def haltExec {V : Type} (cue : Cue V) (cap : Nat) : List Worker → HaltSt → Option HaltSt
  | [], s => some s
  | w :: rest, s =>
    match haltStep cue cap w s with
    | some s1 => haltExec cue cap rest s1
    | none => none

/-- A record conforms to the schema when `Subsume` returns the nil error. -/
def conforms {V : Type} (cue : Cue V) (m : Msg) : Bool :=
  (cue.subsume (cue.compileString (cue.messageString m))).isNone

/-- A sample schema collaborator: a message is rendered as its raw text (a
record as the text "record"), compilation is the identity, and the schema
admits exactly the text "ok". -/
def sampleCue : Cue String :=
  { messageString := fun m =>
      match m with
      | .other raw => raw
      | .record _ => "record"
    compileString := fun t => t
    subsume := fun v => if v = "ok" then none else some "mismatch" }

/-- The message the schema gate holds between receiving it and forwarding or
dropping it, if any. -/
def GatePc.held : GatePc → List Msg
  | .call m => [m]
  | .forward m => [m]
  | _ => []

/-- The message the cancellation check holds between receiving it and handing
it on or dropping it, if any. -/
def SocPc.held : SocPc → List Msg
  | .poll m => [m]
  | .send m => [m]
  | _ => []

/-- The message the cancellation check has polled for and is about to hand on,
if any. -/
def SocPc.cleared : SocPc → List Msg
  | .send m => [m]
  | _ => []

/-- The invariant of the two stages on the input `xs`, whose first `bound`
records conform to the schema. -/
structure HaltInv {V : Type} (cue : Cue V) (cap : Nat) (xs : List Msg) (bound : Nat)
    (s : HaltSt) : Prop where
  valid : ∀ m, m ∈ s.past → conforms cue m = true
  fwdValid : ∀ m, s.gate = .forward m → conforms cue m = true
  room : s.queue.length ≤ cap
  active : s.ctx.cancelled = false →
    s.past ++ s.gate.held ++ s.queue ++ s.soc.held ++ s.inp = xs ∧ ∀ e, s.gate ≠ .report e
  halted : s.ctx.cancelled = true →
    s.past.length + (s.gate.held ++ s.queue ++ s.soc.cleared).length ≤ bound + 1 + cap

/-- A schedule on which a record that follows the violating one passes the
cancellation check before the schema gate has called `cancel`. -/
def raceSchedule : List Worker :=
  [.soc, .soc, .soc, .soc, .soc, .gate, .gate, .soc, .gate, .gate]

/-! # Theorems -/

/-! ## extractHeader -/

theorem rangeAppend_eq (hdr : List String) (fields : List (String × String)) :
    rangeAppend hdr fields = hdr ++ fieldNames fields := by
  induction fields generalizing hdr with
  | nil => simp [rangeAppend, fieldNames]
  | cons f rest ih =>
    obtain ⟨k, v⟩ := f
    simp [rangeAppend, ih, fieldNames]

theorem extractHeader_populated (toCSV : CsvTo) (m : Msg) (h : toCSV.Header ≠ []) :
    extractHeader toCSV m = .ret (some m) none toCSV := by
  have hlen : toCSV.Header.length ≠ 0 := by
    intro h0
    exact h (List.length_eq_zero.mp h0)
  simp [extractHeader, hlen]

theorem extractHeader_record (toCSV : CsvTo) (fields : List (String × String))
    (h : toCSV.Header = []) :
    extractHeader toCSV (.record fields)
      = .ret (some (.record fields)) none { toCSV with Header := fieldNames fields } := by
  simp [extractHeader, h, rangeAppend_eq]

theorem headerAfter_populated (toCSV : CsvTo) (ms : List Msg) (h : toCSV.Header ≠ []) :
    headerAfter toCSV ms = some toCSV := by
  induction ms with
  | nil => rfl
  | cons m rest ih => simp [headerAfter, extractHeader_populated toCSV m h, ih]

theorem fieldNames_ne_nil (fields : List (String × String)) (h : fields ≠ []) :
    fieldNames fields ≠ [] := by
  cases fields with
  | nil => exact absurd rfl h
  | cons f rest => simp [fieldNames]

/-- C3, as stated, fails: when the first record has no fields (the JSON object
with no members) the Header after it is its empty enumeration, and the second
record then changes the Header. -/
theorem header_changes_after_fieldless_first_record :
    (headerAfter toCSVInit [Msg.record []]).map CsvTo.Header = some (fieldNames []) ∧
    (headerAfter toCSVInit [Msg.record [], Msg.record [("a", "1")]]).map CsvTo.Header
      = some ["a"] ∧
    (headerAfter toCSVInit [Msg.record [], Msg.record [("a", "1")]]).map CsvTo.Header
      ≠ (headerAfter toCSVInit [Msg.record []]).map CsvTo.Header := by
  decide

/-- C3, amended: starting from an empty Header, when the first record that
arrives has at least one field, the Header after it is the enumeration of its
field names, and after any number of later messages the Header is still that
same sequence. -/
theorem header_fixed_by_first_record (toCSV : CsvTo) (fields : List (String × String))
    (later : List Msg) (hempty : toCSV.Header = []) (hfields : fields ≠ []) :
    (headerAfter toCSV [Msg.record fields]).map CsvTo.Header = some (fieldNames fields) ∧
    ∀ n, (headerAfter toCSV (Msg.record fields :: later.take n)).map CsvTo.Header
      = some (fieldNames fields) := by
  have key : ∀ ms : List Msg,
      (headerAfter toCSV (Msg.record fields :: ms)).map CsvTo.Header = some (fieldNames fields) := by
    intro ms
    have hne : ({ toCSV with Header := fieldNames fields } : CsvTo).Header ≠ [] :=
      fieldNames_ne_nil fields hfields
    simp [headerAfter, extractHeader_record toCSV fields hempty, headerAfter_populated _ ms hne]
  exact ⟨key [], fun n => key (later.take n)⟩

theorem header_fixed_by_first_record_witness :
    (headerAfter toCSVInit [Msg.record [("b", "2"), ("a", "1")]]).map CsvTo.Header
      = some (fieldNames [("b", "2"), ("a", "1")]) ∧
    ∀ n, (headerAfter toCSVInit
        (Msg.record [("b", "2"), ("a", "1")] :: [Msg.record [("c", "3")], Msg.other "x"].take n)).map
        CsvTo.Header = some (fieldNames [("b", "2"), ("a", "1")]) :=
  header_fixed_by_first_record toCSVInit [("b", "2"), ("a", "1")]
    [Msg.record [("c", "3")], Msg.other "x"] rfl (by decide)

/-- C10, the failing input: with an empty Header a message that is not a map
makes `extractHeader` panic at the type assertion, so the call neither
completes normally nor returns the message; `line.I` around it forwards
nothing. -/
theorem extractHeader_panics_on_non_record :
    extractHeader toCSVInit (Msg.other "[1,2]") = Outcome.panic ∧
    lineI (fun m st => extractHeader st m) [Msg.other "[1,2]"] (StageRun.start toCSVInit)
      = { out := [], errs := [], st := toCSVInit, panicked := true } := by
  decide

/-- Where `extractHeader` does return, it returns the message itself and the nil
error: this is so for every record, and for every message once the Header is
populated. -/
theorem extractHeader_returns_message (toCSV : CsvTo) (m : Msg)
    (h : toCSV.Header ≠ [] ∨ ∃ fields, m = Msg.record fields) :
    ∃ st, extractHeader toCSV m = .ret (some m) none st := by
  by_cases hh : toCSV.Header = []
  · rcases h with h | ⟨fields, rfl⟩
    · exact absurd hh h
    · exact ⟨_, extractHeader_record toCSV fields hh⟩
  · exact ⟨toCSV, extractHeader_populated toCSV m hh⟩

/-! ## newValidator -/

/-- C4: on a mismatch reported by `Subsume` the function returns the nil message
and that error, and the context at the moment of return has been cancelled by
one more call of `cancel`; when the check succeeds the function returns the
message itself and the nil error, and the context is as it was. -/
theorem newValidator_contract {V : Type} (cue : Cue V) (m : Msg) (c : Ctx) :
    (∀ err, cue.subsume (cue.compileString (cue.messageString m)) = some err →
      newValidator cue m c = .ret none (some err) (cancel c) ∧
      (cancel c).cancelled = true ∧ (cancel c).cancelCalls = c.cancelCalls + 1) ∧
    (cue.subsume (cue.compileString (cue.messageString m)) = none →
      newValidator cue m c = .ret (some m) none c) := by
  constructor
  · intro err h
    simp [newValidator, h, cancel]
  · intro h
    simp [newValidator, h]

theorem newValidator_contract_witness :
    (newValidator sampleCue (Msg.other "bad") Ctx.background
        = .ret none (some "mismatch") (cancel Ctx.background) ∧
      (cancel Ctx.background).cancelled = true ∧
      (cancel Ctx.background).cancelCalls = Ctx.background.cancelCalls + 1) ∧
    newValidator sampleCue (Msg.other "ok") Ctx.background
      = .ret (some (Msg.other "ok")) none Ctx.background :=
  ⟨(newValidator_contract sampleCue (Msg.other "bad") Ctx.background).1 "mismatch" (by decide),
   (newValidator_contract sampleCue (Msg.other "ok") Ctx.background).2 (by decide)⟩

/-! ## stopOnCancel -/

theorem stopOnCancelLoop_active (done : Nat → Bool) (xs : List Msg) (i : Nat) (r : SocRun)
    (h : ∀ j, j < xs.length → done (i + j) = false) :
    stopOnCancelLoop done i xs r
      = { out := r.out ++ xs, errs := r.errs, received := r.received + xs.length, unread := [] } := by
  induction xs generalizing i r with
  | nil => simp [stopOnCancelLoop]
  | cons m rest ih =>
    have h0 : done i = false := by simpa using h 0 (by simp)
    have hrest : ∀ j, j < rest.length → done (i + 1 + j) = false := by
      intro j hj
      have := h (j + 1) (by simpa using hj)
      simpa [Nat.add_assoc, Nat.add_comm 1 j] using this
    simp [stopOnCancelLoop, h0, ih (i + 1) _ hrest, Nat.add_assoc, Nat.add_comm 1 rest.length]

theorem stopOnCancelLoop_cancelled (done : Nat → Bool) (pre : List Msg) (m : Msg)
    (post : List Msg) (i : Nat) (r : SocRun)
    (hpre : ∀ j, j < pre.length → done (i + j) = false) (hm : done (i + pre.length) = true) :
    stopOnCancelLoop done i (pre ++ m :: post) r
      = { out := r.out ++ pre, errs := r.errs ++ [ctxCancelledErr],
          received := r.received + pre.length + 1, unread := post } := by
  induction pre generalizing i r with
  | nil =>
    have hm0 : done i = true := by simpa using hm
    simp [stopOnCancelLoop, hm0]
  | cons p rest ih =>
    have h0 : done i = false := by simpa using hpre 0 (by simp)
    have hrest : ∀ j, j < rest.length → done (i + 1 + j) = false := by
      intro j hj
      have := hpre (j + 1) (by simpa using hj)
      simpa [Nat.add_assoc, Nat.add_comm 1 j] using this
    have hm1 : done (i + 1 + rest.length) = true := by
      simpa [Nat.add_assoc, Nat.add_comm 1 rest.length] using hm
    simp [stopOnCancelLoop, h0, ih (i + 1) _ hrest hm1, Nat.add_assoc,
      Nat.add_comm 1 rest.length]

theorem stopOnCancelLoop_bounds (done : Nat → Bool) (xs : List Msg) (i : Nat) (r : SocRun) :
    (stopOnCancelLoop done i xs r).errs.length ≤ r.errs.length + 1 ∧
    ∃ fwd, fwd <+: xs ∧ (stopOnCancelLoop done i xs r).out = r.out ++ fwd := by
  induction xs generalizing i r with
  | nil => exact ⟨by simp [stopOnCancelLoop], [], by simp, by simp [stopOnCancelLoop]⟩
  | cons m rest ih =>
    by_cases hd : done i = true
    · exact ⟨by simp [stopOnCancelLoop, hd], [], by simp, by simp [stopOnCancelLoop, hd]⟩
    · have hd0 : done i = false := by simpa using hd
      obtain ⟨he, fwd, hfwd, hout⟩ := ih (i + 1)
        { r with out := r.out ++ [m], received := r.received + 1, unread := rest }
      refine ⟨by simpa [stopOnCancelLoop, hd0] using he, m :: fwd, ?_, ?_⟩
      · obtain ⟨t, ht⟩ := hfwd
        exact ⟨t, by simp [← ht]⟩
      · simpa [stopOnCancelLoop, hd0] using hout

/-- C6: when the poll for the message with index `k` is the first to see the
context cancelled, the stage writes exactly one error report, has forwarded
exactly the `k` messages before it, has taken `k + 1` messages from its input
and leaves the rest unread; and in every run the stage writes at most one
error report and what it forwards is a prefix of its input. -/
theorem stopOnCancel_cancelled (done : Nat → Bool) (xs : List Msg) (k : Nat)
    (hk : k < xs.length) (hdone : done k = true) (hbefore : ∀ j, j < k → done j = false) :
    (stopOnCancel done xs).errs = [ctxCancelledErr] ∧
    (stopOnCancel done xs).out = xs.take k ∧
    (stopOnCancel done xs).received = k + 1 ∧
    (stopOnCancel done xs).unread = xs.drop (k + 1) ∧
    (∀ (poll : Nat → Bool) (ys : List Msg),
      (stopOnCancel poll ys).errs.length ≤ 1 ∧ (stopOnCancel poll ys).out <+: ys) := by
  have hlen : (xs.take k).length = k := by simp [Nat.le_of_lt hk]
  have hsplit : xs = xs.take k ++ xs.get ⟨k, hk⟩ :: xs.drop (k + 1) := by
    have h1 : xs = xs.take k ++ xs.drop k := (List.take_append_drop k xs).symm
    have h2 : xs.drop k = xs.get ⟨k, hk⟩ :: xs.drop (k + 1) := by
      exact List.drop_eq_getElem_cons hk
    rw [h2] at h1
    exact h1
  have hrun := stopOnCancelLoop_cancelled done (xs.take k) (xs.get ⟨k, hk⟩) (xs.drop (k + 1)) 0
    { out := [], errs := [], received := 0, unread := xs }
    (by
      intro j hj
      rw [hlen] at hj
      simpa using hbefore j hj)
    (by simpa [hlen] using hdone)
  rw [← hsplit] at hrun
  refine ⟨?_, ?_, ?_, ?_, ?_⟩
  · simp [stopOnCancel, hrun]
  · simp [stopOnCancel, hrun]
  · simp [stopOnCancel, hrun, hlen]
  · simp [stopOnCancel, hrun]
  · intro poll ys
    obtain ⟨he, fwd, hfwd, hout⟩ := stopOnCancelLoop_bounds poll ys 0
      { out := [], errs := [], received := 0, unread := ys }
    refine ⟨by simpa [stopOnCancel] using he, ?_⟩
    have : (stopOnCancel poll ys).out = fwd := by simpa [stopOnCancel] using hout
    rw [this]
    exact hfwd

theorem stopOnCancel_cancelled_witness :
    (stopOnCancel (fun i => decide (1 ≤ i)) [Msg.other "a", Msg.other "b", Msg.other "c"]).errs
      = [ctxCancelledErr] ∧
    (stopOnCancel (fun i => decide (1 ≤ i)) [Msg.other "a", Msg.other "b", Msg.other "c"]).out
      = [Msg.other "a", Msg.other "b", Msg.other "c"].take 1 ∧
    (stopOnCancel (fun i => decide (1 ≤ i)) [Msg.other "a", Msg.other "b", Msg.other "c"]).received
      = 1 + 1 ∧
    (stopOnCancel (fun i => decide (1 ≤ i)) [Msg.other "a", Msg.other "b", Msg.other "c"]).unread
      = [Msg.other "a", Msg.other "b", Msg.other "c"].drop (1 + 1) ∧
    (∀ (poll : Nat → Bool) (ys : List Msg),
      (stopOnCancel poll ys).errs.length ≤ 1 ∧ (stopOnCancel poll ys).out <+: ys) :=
  stopOnCancel_cancelled (fun i => decide (1 ≤ i))
    [Msg.other "a", Msg.other "b", Msg.other "c"] 1 (by decide) (by decide)
    (by
      intro j hj
      have : j = 0 := by omega
      subst this
      decide)

/-- C7: when every poll sees the context still active, the stage forwards the
whole input unchanged and in order, writes no error report, and returns with
all of its input read. -/
theorem stopOnCancel_active (done : Nat → Bool) (xs : List Msg)
    (hactive : ∀ i, i < xs.length → done i = false) :
    (stopOnCancel done xs).out = xs ∧
    (stopOnCancel done xs).errs = [] ∧
    (stopOnCancel done xs).received = xs.length ∧
    (stopOnCancel done xs).unread = [] := by
  have hrun := stopOnCancelLoop_active done xs 0
    { out := [], errs := [], received := 0, unread := xs }
    (by
      intro j hj
      simpa using hactive j hj)
  simp [stopOnCancel, hrun]

theorem stopOnCancel_active_witness :
    (stopOnCancel (fun _ => false) [Msg.other "a", Msg.record [("k", "v")]]).out
      = [Msg.other "a", Msg.record [("k", "v")]] ∧
    (stopOnCancel (fun _ => false) [Msg.other "a", Msg.record [("k", "v")]]).errs = [] ∧
    (stopOnCancel (fun _ => false) [Msg.other "a", Msg.record [("k", "v")]]).received
      = [Msg.other "a", Msg.record [("k", "v")]].length ∧
    (stopOnCancel (fun _ => false) [Msg.other "a", Msg.record [("k", "v")]]).unread = [] :=
  stopOnCancel_active (fun _ => false) [Msg.other "a", Msg.record [("k", "v")]]
    (fun _ _ => rfl)

/-! ## main -/

/-- C8, as stated, fails: with a schema and `-stop` the pipeline starts with the
cancellation check, then the schema gate, and only then the decode stage, so
decode does not precede the schema gate and the schema gate does not precede
the cancellation check. -/
theorem main_stage_order_counterexample :
    main { schemaCueFile := "schema.cue", stopOnError := true } (fun _ => .ok "_")
      = some [Stage.stopOnCancel, Stage.newValidator, Stage.jsonFrom, Stage.extractHeader,
              Stage.runToCSVLater, Stage.stdout] ∧
    ¬ List.Sublist [Stage.stopOnCancel, Stage.newValidator, Stage.jsonFrom, Stage.extractHeader,
              Stage.runToCSVLater, Stage.stdout] overviewOrder ∧
    ¬ List.Sublist [Stage.jsonFrom, Stage.newValidator]
        [Stage.stopOnCancel, Stage.newValidator, Stage.jsonFrom, Stage.extractHeader,
         Stage.runToCSVLater, Stage.stdout] ∧
    ¬ List.Sublist [Stage.newValidator, Stage.stopOnCancel]
        [Stage.stopOnCancel, Stage.newValidator, Stage.jsonFrom, Stage.extractHeader,
         Stage.runToCSVLater, Stage.stdout] := by
  decide

/-- C8, amended: whenever `main` gets as far as running a pipeline, its stages
are, in this order, the cancellation check (with a schema and `-stop`), the
schema gate (with a schema), decode, header discovery, the lazy sub-pipeline
and the output sink. -/
theorem main_stage_order (flags : Flags) (readFile : String → Except Err String)
    (stages : List Stage) (hrun : main flags readFile = some stages) :
    stages
      = (if flags.schemaCueFile ≠ "" ∧ flags.stopOnError = true then [Stage.stopOnCancel] else [])
        ++ (if flags.schemaCueFile ≠ "" then [Stage.newValidator] else [])
        ++ [Stage.jsonFrom, Stage.extractHeader, Stage.runToCSVLater, Stage.stdout] ∧
    List.Sublist stages addOrder := by
  obtain ⟨file, stop⟩ := flags
  by_cases hfile : file = ""
  · subst hfile
    simp [main, lineNew, lineAdd] at hrun
    subst hrun
    refine ⟨by simp, by decide⟩
  · simp only [main, lineNew, lineAdd] at hrun
    rw [if_pos hfile] at hrun
    cases hread : readFile file with
    | error e => simp [hread] at hrun
    | ok src =>
      simp only [hread] at hrun
      cases stop with
      | true =>
        simp at hrun
        subst hrun
        refine ⟨by simp [hfile], by decide⟩
      | false =>
        simp at hrun
        subst hrun
        refine ⟨by simp [hfile], by decide⟩

theorem main_stage_order_witness :
    [Stage.newValidator, Stage.jsonFrom, Stage.extractHeader, Stage.runToCSVLater, Stage.stdout]
      = (if ({ schemaCueFile := "schema.cue", stopOnError := false } : Flags).schemaCueFile ≠ "" ∧
            ({ schemaCueFile := "schema.cue", stopOnError := false } : Flags).stopOnError = true
          then [Stage.stopOnCancel] else [])
        ++ (if ({ schemaCueFile := "schema.cue", stopOnError := false } : Flags).schemaCueFile ≠ ""
          then [Stage.newValidator] else [])
        ++ [Stage.jsonFrom, Stage.extractHeader, Stage.runToCSVLater, Stage.stdout] ∧
    List.Sublist
      [Stage.newValidator, Stage.jsonFrom, Stage.extractHeader, Stage.runToCSVLater, Stage.stdout]
      addOrder :=
  main_stage_order { schemaCueFile := "schema.cue", stopOnError := false } (fun _ => .ok "_")
    [Stage.newValidator, Stage.jsonFrom, Stage.extractHeader, Stage.runToCSVLater, Stage.stdout]
    (by decide)

/-! ## The schema gate without `-stop` -/

theorem lineI_newValidator {V : Type} (cue : Cue V) (xs : List Msg) (r : StageRun Ctx) :
    lineI (newValidator cue) xs r
      = { out := r.out ++ xs.filter (conforms cue)
          errs := r.errs ++ xs.filterMap
            (fun m => cue.subsume (cue.compileString (cue.messageString m)))
          st := xs.foldl (fun c m => if conforms cue m then c else cancel c) r.st
          panicked := r.panicked } := by
  induction xs generalizing r with
  | nil => simp [lineI]
  | cons m rest ih =>
    cases hm : cue.subsume (cue.compileString (cue.messageString m)) with
    | none => simp [lineI, newValidator, hm, ih, conforms]
    | some e => simp [lineI, newValidator, hm, ih, conforms]

theorem foldl_cancel_keeps {V : Type} (cue : Cue V) (xs : List Msg) (c : Ctx)
    (h : c.cancelled = true) :
    (xs.foldl (fun c m => if conforms cue m then c else cancel c) c).cancelled = true := by
  induction xs generalizing c with
  | nil => simpa using h
  | cons m rest ih =>
    simp only [List.foldl_cons]
    apply ih
    by_cases hm : conforms cue m = true
    · simpa [hm] using h
    · simp [hm, cancel]

theorem foldl_cancel_hits {V : Type} (cue : Cue V) (xs : List Msg) (c : Ctx) (m : Msg)
    (hmem : m ∈ xs) (hm : conforms cue m = false) :
    (xs.foldl (fun c m => if conforms cue m then c else cancel c) c).cancelled = true := by
  induction xs generalizing c with
  | nil => simp at hmem
  | cons x rest ih =>
    simp only [List.foldl_cons]
    rcases List.mem_cons.mp hmem with rfl | hrest
    · apply foldl_cancel_keeps
      simp [hm, cancel]
    · exact ih _ hrest

/-- C5, as stated, fails: with a schema and without `-stop` the pipeline still
holds the schema gate, and the gate called on a violating record returns the
error with the shared context cancelled. -/
theorem mismatch_cancels_without_stop :
    main { schemaCueFile := "schema.cue", stopOnError := false } (fun _ => .ok "_")
      = some [Stage.newValidator, Stage.jsonFrom, Stage.extractHeader, Stage.runToCSVLater,
              Stage.stdout] ∧
    newValidator sampleCue (Msg.other "bad") Ctx.background
      = .ret none (some "mismatch") { cancelled := true, cancelCalls := 1 } ∧
    (lineI (newValidator sampleCue) [Msg.other "bad"] (StageRun.start Ctx.background)).st.cancelled
      = true := by
  decide

/-- C5, amended: with a schema and without `-stop` the pipeline holds the schema
gate and no cancellation check; a record that violates the schema is reported
as an error, is not forwarded, and the gate does cancel the shared context;
the gate still checks every record of its input, forwarding the conforming
ones in order and reporting the others in order. -/
theorem mismatch_without_stop {V : Type} (flags : Flags) (readFile : String → Except Err String)
    (src : String) (cue : Cue V)
    (hschema : flags.schemaCueFile ≠ "") (hstop : flags.stopOnError = false)
    (hread : readFile flags.schemaCueFile = .ok src) :
    main flags readFile
      = some [Stage.newValidator, Stage.jsonFrom, Stage.extractHeader, Stage.runToCSVLater,
              Stage.stdout] ∧
    (∀ (m : Msg) (c : Ctx), conforms cue m = false →
      ∃ err, newValidator cue m c = .ret none (some err) (cancel c) ∧
        (cancel c).cancelled = true) ∧
    (∀ (xs : List Msg) (c : Ctx),
      (lineI (newValidator cue) xs (StageRun.start c)).out = xs.filter (conforms cue) ∧
      (lineI (newValidator cue) xs (StageRun.start c)).errs
        = xs.filterMap (fun m => cue.subsume (cue.compileString (cue.messageString m))) ∧
      (lineI (newValidator cue) xs (StageRun.start c)).panicked = false ∧
      ((∃ m, m ∈ xs ∧ conforms cue m = false) →
        (lineI (newValidator cue) xs (StageRun.start c)).st.cancelled = true)) := by
  refine ⟨?_, ?_, ?_⟩
  · obtain ⟨file, stop⟩ := flags
    simp only at hschema hstop hread
    subst hstop
    simp [main, lineNew, lineAdd, hschema, hread]
  · intro m c hm
    cases hs : cue.subsume (cue.compileString (cue.messageString m)) with
    | none => simp [conforms, hs] at hm
    | some e => exact ⟨e, by simp [newValidator, hs], rfl⟩
  · intro xs c
    rw [lineI_newValidator]
    refine ⟨by simp [StageRun.start], by simp [StageRun.start], by simp [StageRun.start], ?_⟩
    rintro ⟨m, hmem, hm⟩
    exact foldl_cancel_hits cue xs c m hmem hm

theorem mismatch_without_stop_witness :
    main { schemaCueFile := "schema.cue", stopOnError := false } (fun _ => .ok "_")
      = some [Stage.newValidator, Stage.jsonFrom, Stage.extractHeader, Stage.runToCSVLater,
              Stage.stdout] ∧
    (∀ (m : Msg) (c : Ctx), conforms sampleCue m = false →
      ∃ err, newValidator sampleCue m c = .ret none (some err) (cancel c) ∧
        (cancel c).cancelled = true) ∧
    (∀ (xs : List Msg) (c : Ctx),
      (lineI (newValidator sampleCue) xs (StageRun.start c)).out = xs.filter (conforms sampleCue) ∧
      (lineI (newValidator sampleCue) xs (StageRun.start c)).errs
        = xs.filterMap
            (fun m => sampleCue.subsume (sampleCue.compileString (sampleCue.messageString m))) ∧
      (lineI (newValidator sampleCue) xs (StageRun.start c)).panicked = false ∧
      ((∃ m, m ∈ xs ∧ conforms sampleCue m = false) →
        (lineI (newValidator sampleCue) xs (StageRun.start c)).st.cancelled = true)) :=
  mismatch_without_stop { schemaCueFile := "schema.cue", stopOnError := false }
    (fun _ => .ok "_") "_" sampleCue (by decide) rfl rfl

/-! ## runToCSVLater -/

theorem emptyRun_step {σ : Type} (T : Transformer σ) (w : Who) (i : Nat) (s : LazySt σ)
    (h : lazyStep T w (emptyRun i) = some s) : w = .main ∧ i < 2 ∧ s = emptyRun (i + 1) := by
  match i with
  | 0 => cases w <;> simp_all [lazyStep, runToCSVLater, runToCSVLaterInner, runToCSVLaterDrain, emptyRun, LazySt.init]
  | 1 => cases w <;> simp_all [lazyStep, runToCSVLater, runToCSVLaterInner, runToCSVLaterDrain, emptyRun, LazySt.init]
  | n + 2 => cases w <;> simp_all [lazyStep, runToCSVLater, runToCSVLaterInner, runToCSVLaterDrain, emptyRun, LazySt.init]

theorem emptyRun_exec {σ : Type} (T : Transformer σ) (sched : List Who) (i : Nat) (s : LazySt σ)
    (h : lazyExec T sched (emptyRun i) = some s) :
    s = emptyRun (i + sched.length) ∧ (sched = [] ∨ i + sched.length ≤ 2) := by
  induction sched generalizing i with
  | nil =>
    simp [lazyExec] at h
    simp [h]
  | cons w rest ih =>
    simp only [lazyExec] at h
    cases hstep : lazyStep T w (emptyRun i) with
    | none => simp [hstep] at h
    | some s2 =>
      simp only [hstep] at h
      obtain ⟨_, hi, rfl⟩ := emptyRun_step T w i s2 hstep
      obtain ⟨hs, hlen⟩ := ih (i + 1) h
      refine ⟨by rw [hs]; congr 1; simp; omega, Or.inr ?_⟩
      rcases hlen with hnil | hlen
      · subst hnil
        simp
        omega
      · simp
        omega

/-- C2: when the input is closed from the start, in every execution the started
flag stays false, neither the inner transformer nor the drain goroutine is ever
launched, nothing is written to the output or to the error reports, the stage
function is never blocked, and it has returned after its second step. -/
theorem runToCSVLater_empty {σ : Type} (T : Transformer σ) (sched : List Who) (s : LazySt σ)
    (hrun : lazyExec T sched (LazySt.init []) = some s) :
    s.spunUp = false ∧ s.launches = [] ∧ s.inner = .notStarted ∧ s.drain = .notStarted ∧
    s.out = [] ∧ s.errs = [] ∧ sched.length ≤ 2 ∧
    (s.main = .returned ∨ ∃ s1, lazyStep T .main s = some s1) ∧
    ∃ s2, lazyExec T [.main, .main] (LazySt.init []) = some s2 ∧ s2.main = .returned := by
  have hrun0 : lazyExec T sched (emptyRun 0) = some s := hrun
  obtain ⟨hs, hlen⟩ := emptyRun_exec T sched 0 s hrun0
  have hbound : sched.length ≤ 2 := by
    rcases hlen with hnil | hlen
    · simp [hnil]
    · omega
  have hfinal : ∃ s2, lazyExec T [.main, .main] (LazySt.init []) = some s2 ∧ s2.main = .returned :=
    ⟨emptyRun 2, rfl, rfl⟩
  subst hs
  simp only [Nat.zero_add]
  match hn : sched.length with
  | 0 => exact ⟨rfl, rfl, rfl, rfl, rfl, rfl, by omega, Or.inr ⟨emptyRun 1, rfl⟩, hfinal⟩
  | 1 => exact ⟨rfl, rfl, rfl, rfl, rfl, rfl, by omega, Or.inr ⟨emptyRun 2, rfl⟩, hfinal⟩
  | n + 2 => exact ⟨rfl, rfl, rfl, rfl, rfl, rfl, by omega, Or.inl rfl, hfinal⟩

theorem runToCSVLater_empty_witness :
    (emptyRun 2 : LazySt RowPc).spunUp = false ∧ (emptyRun 2 : LazySt RowPc).launches = [] ∧
    (emptyRun 2 : LazySt RowPc).inner = .notStarted ∧
    (emptyRun 2 : LazySt RowPc).drain = .notStarted ∧
    (emptyRun 2 : LazySt RowPc).out = [] ∧ (emptyRun 2 : LazySt RowPc).errs = [] ∧
    [Who.main, Who.main].length ≤ 2 ∧
    ((emptyRun 2 : LazySt RowPc).main = .returned ∨
      ∃ s1, lazyStep rowWriter .main (emptyRun 2) = some s1) ∧
    ∃ s2, lazyExec rowWriter [.main, .main] (LazySt.init []) = some s2 ∧ s2.main = .returned :=
  runToCSVLater_empty rowWriter [.main, .main] (emptyRun 2) rfl

/-! ## Halting on the first mismatch -/

theorem conforming_initial_length {V : Type} (cue : Cue V) (past rest pre post : List Msg)
    (bad : Msg) (heq : past ++ rest = pre ++ bad :: post)
    (hpast : ∀ m, m ∈ past → conforms cue m = true) (hbad : conforms cue bad = false) :
    past.length ≤ pre.length := by
  rcases List.append_eq_append_iff.mp heq with ⟨a, ha, _⟩ | ⟨c, hc, hc2⟩
  · rw [ha]
    simp
  · cases c with
    | nil => simp [hc]
    | cons x c1 =>
      simp at hc2
      obtain ⟨hx, _⟩ := hc2
      subst hx
      have := hpast bad (by simp [hc])
      simp [hbad] at this

theorem haltInv_init {V : Type} (cue : Cue V) (cap : Nat) (xs : List Msg) (bound : Nat) :
    HaltInv cue cap xs bound (HaltSt.init xs) := by
  constructor <;> simp [HaltSt.init, Ctx.background, GatePc.held, SocPc.held]

theorem haltInv_stopOnCancelStep {V : Type} (cue : Cue V) (cap : Nat) (xs : List Msg) (bound : Nat)
    (s s1 : HaltSt) (hinv : HaltInv cue cap xs bound s) (hstep : stopOnCancelStep cap s = some s1) :
    HaltInv cue cap xs bound s1 := by
  obtain ⟨inp, soc, queue, queueClosed, gate, ctx, past, errs⟩ := s
  obtain ⟨h1, h2, h3, h4, h5⟩ := hinv
  simp only at h1 h2 h3 h4 h5
  cases soc with
  | returned => simp [stopOnCancelStep] at hstep
  | report =>
    simp [stopOnCancelStep] at hstep
    subst hstep
    constructor <;> simp_all [GatePc.held, SocPc.held, SocPc.cleared]
  | recv =>
    cases inp with
    | nil =>
      simp [stopOnCancelStep] at hstep
      subst hstep
      constructor <;> simp_all [GatePc.held, SocPc.held, SocPc.cleared]
    | cons m rest =>
      simp [stopOnCancelStep] at hstep
      subst hstep
      constructor <;> simp_all [GatePc.held, SocPc.held, SocPc.cleared]
  | poll m =>
    cases hc : ctx.cancelled with
    | true =>
      simp [stopOnCancelStep, hc] at hstep
      subst hstep
      constructor <;> simp_all [GatePc.held, SocPc.held, SocPc.cleared]
    | false =>
      simp [stopOnCancelStep, hc] at hstep
      subst hstep
      constructor <;> simp_all [GatePc.held, SocPc.held, SocPc.cleared]
  | send m =>
    simp only [stopOnCancelStep] at hstep
    by_cases hhand : gate = .recv ∧ queue = []
    · obtain ⟨hg, hq⟩ := hhand
      subst hg hq
      simp at hstep
      subst hstep
      constructor <;> simp_all [GatePc.held, SocPc.held, SocPc.cleared]
    · rw [if_neg hhand] at hstep
      by_cases hroom : queue.length < cap
      · rw [if_pos hroom] at hstep
        simp at hstep
        subst hstep
        constructor <;> simp_all [GatePc.held, SocPc.held, SocPc.cleared]
        all_goals omega
      · rw [if_neg hroom] at hstep
        simp at hstep

theorem haltInv_newValidatorStep {V : Type} (cue : Cue V) (cap : Nat) (pre post : List Msg) (bad : Msg)
    (hbad : conforms cue bad = false)
    (s s1 : HaltSt) (hinv : HaltInv cue cap (pre ++ bad :: post) pre.length s)
    (hstep : newValidatorStep cue s = some s1) :
    HaltInv cue cap (pre ++ bad :: post) pre.length s1 := by
  obtain ⟨inp, soc, queue, queueClosed, gate, ctx, past, errs⟩ := s
  obtain ⟨h1, h2, h3, h4, h5⟩ := hinv
  simp only at h1 h2 h3 h4 h5
  cases gate with
  | returned => simp [newValidatorStep] at hstep
  | panicked => simp [newValidatorStep] at hstep
  | report e =>
    simp [newValidatorStep] at hstep
    subst hstep
    constructor <;> simp_all [GatePc.held, SocPc.held, SocPc.cleared]
  | forward m =>
    simp [newValidatorStep] at hstep
    subst hstep
    have hm := h2 m rfl
    constructor <;> simp_all [GatePc.held, SocPc.held, SocPc.cleared]
    · intro x hx
      rcases hx with hx | rfl
      · exact h1 x hx
      · exact hm
    · intro hc
      have := h5 hc
      omega
  | recv =>
    cases queue with
    | nil =>
      simp [newValidatorStep] at hstep
      obtain ⟨_, rfl⟩ := hstep
      constructor <;> simp_all [GatePc.held, SocPc.held, SocPc.cleared]
    | cons m rest =>
      simp [newValidatorStep] at hstep
      subst hstep
      constructor <;> simp_all [GatePc.held, SocPc.held, SocPc.cleared]
      all_goals omega
  | call m =>
    cases hs : cue.subsume (cue.compileString (cue.messageString m)) with
    | none =>
      have hm : conforms cue m = true := by simp [conforms, hs]
      simp [newValidatorStep, newValidator, hs] at hstep
      subst hstep
      constructor <;> simp_all [GatePc.held, SocPc.held, SocPc.cleared]
    | some e =>
      have hm : conforms cue m = false := by simp [conforms, hs]
      simp [newValidatorStep, newValidator, hs, cancel] at hstep
      subst hstep
      cases hc : ctx.cancelled with
      | true =>
        have h5c := h5 hc
        constructor <;> simp_all [GatePc.held, SocPc.held, SocPc.cleared]
        all_goals omega
      | false =>
        obtain ⟨heq, _⟩ := h4 hc
        have hlen : past.length ≤ pre.length := by
          apply conforming_initial_length cue past _ pre post bad _ h1 hbad
          · exact (GatePc.call m).held ++ queue ++ soc.held ++ inp
          · simpa [List.append_assoc] using heq
        have hsoc : soc.cleared.length ≤ 1 := by
          cases soc <;> simp [SocPc.cleared]
        constructor <;> simp_all [GatePc.held, SocPc.held, SocPc.cleared]
        all_goals omega

theorem haltInv_exec {V : Type} (cue : Cue V) (cap : Nat) (pre post : List Msg) (bad : Msg)
    (hbad : conforms cue bad = false) (sched : List Worker) (s s1 : HaltSt)
    (hinv : HaltInv cue cap (pre ++ bad :: post) pre.length s)
    (hrun : haltExec cue cap sched s = some s1) :
    HaltInv cue cap (pre ++ bad :: post) pre.length s1 := by
  induction sched generalizing s with
  | nil =>
    simp [haltExec] at hrun
    subst hrun
    exact hinv
  | cons w rest ih =>
    simp only [haltExec] at hrun
    cases hstep : haltStep cue cap w s with
    | none => simp [hstep] at hrun
    | some s2 =>
      simp only [hstep] at hrun
      apply ih s2 _ hrun
      cases w with
      | soc => exact haltInv_stopOnCancelStep cue cap _ _ s s2 hinv hstep
      | gate => exact haltInv_newValidatorStep cue cap pre post bad hbad s s2 hinv hstep

/-- C9, as stated, fails: on the two-record stream whose first record violates
the schema (k = 1) and whose second conforms, with an unbuffered queue, there
is an execution in which the second record passes the cancellation check
before the schema gate has called `cancel`; the gate then forwards it, so one
record is forwarded where the bound k - 1 allows none. -/
theorem halt_bound_counterexample :
    conforms sampleCue (Msg.other "bad") = false ∧
    (haltExec sampleCue 0 raceSchedule (HaltSt.init [Msg.other "bad", Msg.other "ok"])).map
      HaltSt.past = some [Msg.other "ok"] ∧
    (haltExec sampleCue 0 raceSchedule (HaltSt.init [Msg.other "bad", Msg.other "ok"])).map
      (fun s => s.ctx.cancelled) = some true ∧
    ¬ ([Msg.other "ok"].length ≤ 1 - 1) := by
  decide

/-- C9, amended: on a stream whose record k violates the schema (in particular
when it is the first to do so), with `-stop`, in every execution of the cancellation check and the schema gate
as `main` composes them, the number of records forwarded past the schema gate
is at most k plus the capacity of the queue between the two stages (at most k
when that queue is unbuffered), and every forwarded record conforms to the
schema, so record k itself is never forwarded. -/
theorem halt_bound {V : Type} (cue : Cue V) (cap : Nat) (pre post : List Msg) (bad : Msg)
    (sched : List Worker) (s : HaltSt)
    (hbad : conforms cue bad = false)
    (hrun : haltExec cue cap sched (HaltSt.init (pre ++ bad :: post)) = some s) :
    s.past.length ≤ (pre.length + 1) + cap ∧ (∀ m, m ∈ s.past → conforms cue m = true) := by
  have hinv := haltInv_exec cue cap pre post bad hbad sched _ s
    (haltInv_init cue cap _ _) hrun
  obtain ⟨h1, h2, h3, h4, h5⟩ := hinv
  refine ⟨?_, h1⟩
  cases hc : s.ctx.cancelled with
  | true =>
    have := h5 hc
    omega
  | false =>
    obtain ⟨heq, _⟩ := h4 hc
    have hlen : s.past.length ≤ pre.length := by
      apply conforming_initial_length cue s.past _ pre post bad _ h1 hbad
      · exact s.gate.held ++ s.queue ++ s.soc.held ++ s.inp
      · simpa [List.append_assoc] using heq
    omega

theorem halt_bound_witness :
    ([Msg.other "ok"] : List Msg).length ≤ (([] : List Msg).length + 1) + 0 ∧
    (∀ m, m ∈ [Msg.other "ok"] → conforms sampleCue m = true) :=
  halt_bound sampleCue 0 [] [Msg.other "ok"] (Msg.other "bad") raceSchedule
    { inp := [], soc := .recv, queue := [], queueClosed := false, gate := .recv,
      ctx := { cancelled := true, cancelCalls := 1 }, past := [Msg.other "ok"],
      errs := ["mismatch"] }
    (by decide) (by decide)

end Json2Csv
